import Mathlib

/-!
Verification of the GOLFIN visual QA comparison and reporting engine
(QA/visual_qa.py): image normalization, pixel differencing, difference-region
detection, score classification, and batch report aggregation.

The Python code is shallowly embedded: images are exact rational-valued
RGBA rasters (`Image`), numpy statistics become `Finset` sums and folds,
`round(x, 2)` becomes exact half-even rounding on `ℚ`, and the per-screen
report dictionaries become the inductive `ScreenResult`.  Lanczos resampling
is abstracted by a resize parameter constrained only to produce the requested
target size, since every statement about normalization concerns sizes alone.
-/

namespace VisualQA

/-- Round a rational to the nearest integer with ties going to the even
integer, the semantics of the Python builtin `round` on exact values. -/
def roundHalfEven (q : ℚ) : ℤ :=
  if q - ⌊q⌋ < 1/2 then ⌊q⌋
  else if q - ⌊q⌋ > 1/2 then ⌊q⌋ + 1
  else if ⌊q⌋ % 2 = 0 then ⌊q⌋ else ⌊q⌋ + 1

/-- Rounding to two decimal places, `round(x, 2)` in visual_qa.py. -/
def round2 (q : ℚ) : ℚ := (roundHalfEven (100 * q) : ℚ) / 100

/-- A decoded RGBA raster: `size` is the PIL `(width, height)` pair, and
`pix y x c` is channel `c` of the pixel at row `y`, column `x`, an 8-bit
sample read as an exact rational (the float32 value of `np.array(img)`). -/
structure Image where
  size : ℕ × ℕ
  pix : ℕ → ℕ → Fin 4 → ℚ

/-- Python `<` on two `(width, height)` tuples: lexicographic comparison. -/
def sizeLt (a b : ℕ × ℕ) : Bool := a.1 < b.1 || (a.1 = b.1 && a.2 < b.2)

/-- Python `max(a, b)` on two size tuples: the second argument wins only when
it is strictly lexicographically greater. -/
def pyMaxSize (a b : ℕ × ℕ) : ℕ × ℕ := if sizeLt a b then b else a

/-- Normalization step of `pixel_diff` (visual_qa.py lines 168-173): when the
two sizes differ, both images are resized to `max(img1.size, img2.size)`; the
Lanczos filter is abstracted by the `resize` parameter. -/
def normalize (resize : Image → ℕ × ℕ → Image) (img1 img2 : Image) :
    Image × Image :=
  if img1.size ≠ img2.size then
    (resize img1 (pyMaxSize img1.size img2.size),
     resize img2 (pyMaxSize img1.size img2.size))
  else (img1, img2)

/-- A stand-in resampling function used to instantiate theorems at concrete
inputs: it returns an all-zero image of exactly the requested target size. -/
def resizeBlack (img : Image) (target : ℕ × ℕ) : Image :=
  { size := target, pix := fun _ _ _ => 0 }

/-- `threshold = 30` (out of 255) in `pixel_diff`. -/
def threshold : ℚ := 30

/-- `np.abs(arr1 - arr2)` at row `y`, column `x`, channel `c`. -/
def diffAt (p1 p2 : ℕ → ℕ → Fin 4 → ℚ) (y x : ℕ) (c : Fin 4) : ℚ :=
  |p1 y x c - p2 y x c|

/-- Sum of all per-channel absolute differences of an `hgt × wid × 4` array. -/
def totalDiff (hgt wid : ℕ) (p1 p2 : ℕ → ℕ → Fin 4 → ℚ) : ℚ :=
  ∑ y ∈ Finset.range hgt, ∑ x ∈ Finset.range wid, ∑ c : Fin 4, diffAt p1 p2 y x c

/-- `mean_diff = diff.mean()`: arithmetic mean over all `hgt * wid * 4` entries. -/
def mean_diff (hgt wid : ℕ) (p1 p2 : ℕ → ℕ → Fin 4 → ℚ) : ℚ :=
  totalDiff hgt wid p1 p2 / (hgt * wid * 4)

/-- `max_diff = diff.max()`: the largest entry of the difference array, folded
from 0, which is sound because every entry is an absolute value. -/
def max_diff (hgt wid : ℕ) (p1 p2 : ℕ → ℕ → Fin 4 → ℚ) : ℚ :=
  (Finset.range hgt ×ˢ Finset.range wid).fold max 0
    (fun t => (Finset.univ : Finset (Fin 4)).fold max 0 (diffAt p1 p2 t.1 t.2))

/-- `diff.mean(axis=2)`: the per-pixel scalar difference, the mean of the
four channel differences at one pixel. -/
def pixelScalarDiff (p1 p2 : ℕ → ℕ → Fin 4 → ℚ) (y x : ℕ) : ℚ :=
  (∑ c : Fin 4, diffAt p1 p2 y x c) / 4

/-- `diff_mask = diff.mean(axis=2) > threshold`. -/
def maskAt (p1 p2 : ℕ → ℕ → Fin 4 → ℚ) (y x : ℕ) : Bool :=
  decide (pixelScalarDiff p1 p2 y x > threshold)

/-- `diff_mask.sum()`: how many pixels exceed the threshold. -/
def diffCount (hgt wid : ℕ) (p1 p2 : ℕ → ℕ → Fin 4 → ℚ) : ℕ :=
  ((Finset.range hgt ×ˢ Finset.range wid).filter
    (fun t => maskAt p1 p2 t.1 t.2 = true)).card

/-- `diff_percent = diff_mask.sum() / diff_mask.size * 100`, before rounding. -/
def diff_percent (hgt wid : ℕ) (p1 p2 : ℕ → ℕ → Fin 4 → ℚ) : ℚ :=
  (diffCount hgt wid p1 p2 : ℚ) / (hgt * wid) * 100

/-- `row_diff = diff_mask.any(axis=1)`: one boolean per row. -/
def row_diff (hgt wid : ℕ) (p1 p2 : ℕ → ℕ → Fin 4 → ℚ) : List Bool :=
  (List.range hgt).map fun y => (List.range wid).any fun x => maskAt p1 p2 y x

/-- `col_diff = diff_mask.any(axis=0)`: one boolean per column. -/
def col_diff (hgt wid : ℕ) (p1 p2 : ℕ → ℕ → Fin 4 → ℚ) : List Bool :=
  (List.range wid).map fun x => (List.range hgt).any fun y => maskAt p1 p2 y x

/-- `np.argmax` on a boolean vector: the index of the first `True`, and 0
when every entry is `False`. -/
def argmaxBool (l : List Bool) : ℕ := if l.any id then l.findIdx id else 0

/-- One difference bounding box, with the area percentage that triggered it. -/
structure DiffRegion where
  y_start : ℕ
  y_end : ℕ
  x_start : ℕ
  x_end : ℕ
  area_percent : ℚ
deriving DecidableEq

/-- Region detection of `pixel_diff` (visual_qa.py lines 194-209): at most one
bounding region, emitted only above 0.5 percent difference. -/
def regions (hgt wid : ℕ) (p1 p2 : ℕ → ℕ → Fin 4 → ℚ) : List DiffRegion :=
  if diff_percent hgt wid p1 p2 > 1/2 then
    if (row_diff hgt wid p1 p2).any id then
      [{ y_start := argmaxBool (row_diff hgt wid p1 p2)
         y_end := (row_diff hgt wid p1 p2).length
                    - argmaxBool (row_diff hgt wid p1 p2).reverse
         x_start := argmaxBool (col_diff hgt wid p1 p2)
         x_end := (col_diff hgt wid p1 p2).length
                    - argmaxBool (col_diff hgt wid p1 p2).reverse
         area_percent := round2 (diff_percent hgt wid p1 p2) }]
    else []
  else []

/-- The dictionary returned by `pixel_diff` (visual_qa.py lines 211-219),
without the filesystem paths. -/
structure DiffResult where
  mean_diff : ℚ
  max_diff : ℚ
  diff_percent : ℚ
  resolution : ℕ × ℕ
  regions : List DiffRegion
  match_score : ℚ
deriving DecidableEq

/-- Statistics of `pixel_diff` on two equal-shape decoded arrays of height
`hgt` and width `wid`; `resolution` is the PIL `(width, height)` pair. -/
def pixelDiff (hgt wid : ℕ) (p1 p2 : ℕ → ℕ → Fin 4 → ℚ) : DiffResult :=
  { mean_diff := round2 (mean_diff hgt wid p1 p2)
    max_diff := round2 (max_diff hgt wid p1 p2)
    diff_percent := round2 (diff_percent hgt wid p1 p2)
    resolution := (wid, hgt)
    regions := regions hgt wid p1 p2
    match_score := round2 (100 - diff_percent hgt wid p1 p2) }

/-- `pixel_diff` end to end: normalize the two decoded images, then compute
the statistics; the array of an image of size `(w, h)` has shape `(h, w, 4)`. -/
def pixelDiffFull (resize : Image → ℕ × ℕ → Image) (img1 img2 : Image) :
    DiffResult :=
  pixelDiff (normalize resize img1 img2).1.size.2
    (normalize resize img1 img2).1.size.1
    (normalize resize img1 img2).1.pix (normalize resize img1 img2).2.pix

/-- A per-screen record of the `results` dictionary in `compare_screens`:
either a missing-input status record or a full comparison record. -/
inductive ScreenResult where
  | missing_unity : ScreenResult
  | missing_figma : ScreenResult
  | compared : DiffResult → ScreenResult
deriving DecidableEq

/-- `r.get("match_score", 0)`: a record without the key yields the default 0. -/
def getMatchScore : ScreenResult → ℚ
  | ScreenResult.compared d => d.match_score
  | _ => 0

/-- `"status" in r`: true exactly for the missing-input records. -/
def hasStatus : ScreenResult → Bool
  | ScreenResult.compared _ => false
  | _ => true

/-- The status string of a missing-input record. -/
def statusStr : ScreenResult → String
  | ScreenResult.missing_unity => "missing_unity"
  | ScreenResult.missing_figma => "missing_figma"
  | ScreenResult.compared _ => ""

/-- Per-screen dispatch of `compare_screens` (visual_qa.py lines 240-247): the
Unity capture is checked first, then the Figma export, and only when both
exist does the comparison record `d` from `pixel_diff` enter the results. -/
def screenStatus (unityExists figmaExists : Bool) (d : DiffResult) :
    ScreenResult :=
  if !unityExists then ScreenResult.missing_unity
  else if !figmaExists then ScreenResult.missing_figma
  else ScreenResult.compared d

/-- The `summary` counts of the batch report. -/
structure Summary where
  total : ℕ
  passing : ℕ
  warning : ℕ
  failing : ℕ
  missing : ℕ
deriving DecidableEq

/-- The summary block of `compare_screens` (visual_qa.py lines 271-277); every
bucket is a count over all result records, with absent scores read as 0. -/
def summary (results : List (String × ScreenResult)) : Summary :=
  { total := results.length
    passing := (results.filter fun r => decide (getMatchScore r.2 > 95)).length
    warning := (results.filter fun r =>
      decide (80 < getMatchScore r.2) && decide (getMatchScore r.2 ≤ 95)).length
    failing := (results.filter fun r => decide (getMatchScore r.2 ≤ 80)).length
    missing := (results.filter fun r => hasStatus r.2).length }

/-- The report value serialized to `qa_report_latest.json` (visual_qa.py lines
268-278): it embeds `datetime.now().isoformat()` as its timestamp. -/
structure BatchReport where
  timestamp : String
  screens : List (String × ScreenResult)
  summary : Summary
deriving DecidableEq

/-- Build the batch report from the clock reading and the results. -/
def buildReport (timestamp : String) (results : List (String × ScreenResult)) :
    BatchReport :=
  { timestamp := timestamp, screens := results, summary := summary results }

/-- Classification bands used at every judgement site. -/
inductive QaClass where
  | passing : QaClass
  | warning : QaClass
  | failing : QaClass
deriving DecidableEq

/-- The banding applied to a match score: above 95 passing, above 80 warning,
otherwise failing. -/
def classify (score : ℚ) : QaClass :=
  if score > 95 then QaClass.passing
  else if score > 80 then QaClass.warning
  else QaClass.failing

/-- The emoji chain of visual_qa.py lines 264 and 318. -/
def statusEmoji (score : ℚ) : String :=
  if score > 95 then "✅" else if score > 80 then "🟡" else "🔴"

/-- One table row of `generate_markdown_report` (visual_qa.py lines 313-319);
numeric formatting abstracts the Python float repr by `toString`. -/
def markdownRow (name : String) (r : ScreenResult) : String :=
  match r with
  | ScreenResult.compared d =>
      "| " ++ name ++ " | " ++ toString d.match_score ++ "% | "
        ++ toString d.diff_percent ++ "% | " ++ statusEmoji d.match_score ++ " |"
  | m => "| " ++ name ++ " | — | — | ⚠️ " ++ statusStr m ++ " |"

/-- The `lines` list of `generate_markdown_report` (visual_qa.py lines
299-330); the second line embeds the report timestamp. -/
def markdownLines (report : BatchReport) : List String :=
  ["# GOLFIN Visual QA Report",
   "**Generated:** " ++ report.timestamp,
   "**Screens:** " ++ toString report.summary.total ++ " total | ✅ "
     ++ toString report.summary.passing ++ " passing | 🟡 "
     ++ toString report.summary.warning ++ " warning | 🔴 "
     ++ toString report.summary.failing ++ " failing",
   "", "## Results", "",
   "| Screen | Match | Diff % | Status |",
   "|--------|-------|--------|--------|"]
  ++ (report.screens.map fun nr => markdownRow nr.1 nr.2)
  ++ ["", "## How to Fix", "",
      "1. Open diff images in `QA/Reports/diff_*.png` to see highlighted differences",
      "2. For AI-powered analysis, upload Unity + Figma screenshots to the chat",
      "3. Run `Tools → Create GOLFIN UI Scene` in Unity after code fixes",
      "4. Recapture with `Tools → QA → Capture All Screens`",
      "5. Re-run `python3 visual_qa.py --compare` to verify"]

/-- The markdown document written to `qa_report_latest.md`. -/
def generateMarkdownReport (report : BatchReport) : String :=
  String.intercalate "\n" (markdownLines report)

/-- All-black test pixels. -/
def blackPix : ℕ → ℕ → Fin 4 → ℚ := fun _ _ _ => 0

/-- All-white test pixels. -/
def whitePix : ℕ → ℕ → Fin 4 → ℚ := fun _ _ _ => 255

/-- A concrete 100 × 200 image. -/
def imgA : Image := { size := (100, 200), pix := blackPix }

/-- A concrete 300 × 100 image. -/
def imgB : Image := { size := (300, 100), pix := blackPix }

/- ════════════════  Theorems  ════════════════ -/

theorem roundHalfEven_close (q : ℚ) : |((roundHalfEven q : ℤ) : ℚ) - q| ≤ 1/2 := by
  have h1 : ((⌊q⌋ : ℤ) : ℚ) ≤ q := Int.floor_le q
  have h2 : q < ((⌊q⌋ : ℤ) : ℚ) + 1 := Int.lt_floor_add_one q
  unfold roundHalfEven
  split
  case isTrue h =>
    rw [abs_le]; constructor <;> push_cast <;> linarith
  case isFalse h =>
    split
    case isTrue h' =>
      rw [abs_le]; constructor <;> push_cast <;> linarith
    case isFalse h' =>
      split <;> (rw [abs_le]; constructor <;> push_cast <;> push_cast at h h' <;> linarith)

theorem round2_close (q : ℚ) : |round2 q - q| ≤ 1/200 := by
  have h := roundHalfEven_close (100 * q)
  unfold round2
  rw [abs_le] at h ⊢
  constructor <;> linarith [h.1, h.2]

/-- C1 (counterexample): normalizing images of sizes 100×200 and 300×100
resizes both to the Python tuple max (300, 100) — width 300, height 100 —
not to the per-axis maximum (300, 200). -/
theorem normalize_not_per_axis_max :
    (normalize resizeBlack imgA imgB).1.size = (300, 100) ∧
    (normalize resizeBlack imgA imgB).2.size = (300, 100) ∧
    ¬((normalize resizeBlack imgA imgB).1.size = (300, 200) ∧
      (normalize resizeBlack imgA imgB).2.size = (300, 200)) := by
  refine ⟨rfl, rfl, ?_⟩
  intro h
  exact absurd h.1 (by decide)

/-- C1 (amended): when the sizes differ, both images are resized to the
lexicographically larger of the two (width, height) tuples — Python
`max(img1.size, img2.size)` — and when the sizes already agree the inputs are
returned unchanged. -/
theorem normalize_target_tuple_max (resize : Image → ℕ × ℕ → Image)
    (hres : ∀ i t, (resize i t).size = t) (img1 img2 : Image) :
    (img1.size ≠ img2.size →
      (normalize resize img1 img2).1.size = pyMaxSize img1.size img2.size ∧
      (normalize resize img1 img2).2.size = pyMaxSize img1.size img2.size) ∧
    (img1.size = img2.size → normalize resize img1 img2 = (img1, img2)) := by
  constructor
  · intro hne
    rw [normalize, if_pos hne]
    exact ⟨hres .., hres ..⟩
  · intro heq
    rw [normalize, if_neg (by simpa using heq)]

/-- Witness for C1 at the images of sizes 100×200 and 300×100. -/
theorem normalize_target_tuple_max_witness :
    (imgA.size ≠ imgB.size →
      (normalize resizeBlack imgA imgB).1.size = pyMaxSize imgA.size imgB.size ∧
      (normalize resizeBlack imgA imgB).2.size = pyMaxSize imgA.size imgB.size) ∧
    (imgA.size = imgB.size → normalize resizeBlack imgA imgB = (imgA, imgB)) :=
  normalize_target_tuple_max resizeBlack (fun _ _ => rfl) imgA imgB

/-- C3 (counterexample): a Compared result with match score exactly 95.0 is
classified warning (🟡), not passing, at every judgement site. -/
theorem classify_95_is_warning :
    classify 95 = QaClass.warning ∧ classify 95 ≠ QaClass.passing ∧
    statusEmoji 95 = "🟡" ∧
    (decide ((95:ℚ) > 95) = false) := by
  refine ⟨?_, ?_, ?_, by decide⟩ <;> norm_num [classify, statusEmoji] <;> decide

/-- C3 (amended): classification is uniform — the summary buckets, the console
emoji and the markdown emoji all use the same banding — and the boundaries
are: strictly above 95 passing, above 80 up to and including 95 warning (so a
score of exactly 95.0 is warning, not passing), and at or below 80 failing
(so a score of exactly 80.0 is failing). -/
theorem classification_bands (score : ℚ) :
    (score > 95 → classify score = QaClass.passing) ∧
    (80 < score ∧ score ≤ 95 → classify score = QaClass.warning) ∧
    (score ≤ 80 → classify score = QaClass.failing) ∧
    statusEmoji score = (match classify score with
      | QaClass.passing => "✅"
      | QaClass.warning => "🟡"
      | QaClass.failing => "🔴") := by
  unfold classify statusEmoji
  refine ⟨fun h => if_pos h, fun h => ?_, fun h => ?_, ?_⟩
  · rw [if_neg (by linarith [h.2]), if_pos h.1]
  · rw [if_neg (by linarith), if_neg (by linarith)]
  · split_ifs <;> rfl

/-- Witness for C3 at scores 96, 95 and 80. -/
theorem classification_bands_witness :
    ((96:ℚ) > 95 ∧ classify 96 = QaClass.passing) ∧
    ((80:ℚ) < 95 ∧ (95:ℚ) ≤ 95 ∧ classify 95 = QaClass.warning) ∧
    ((80:ℚ) ≤ 80 ∧ classify 80 = QaClass.failing) :=
  ⟨⟨by decide, (classification_bands 96).1 (by decide)⟩,
   ⟨by decide, by decide, (classification_bands 95).2.1 ⟨by decide, by decide⟩⟩,
   ⟨by decide, (classification_bands 80).2.2.1 (by decide)⟩⟩

/-- C10: the Unity capture is checked before the Figma export, so a screen
missing both images is recorded `missing_unity` — never `missing_figma` — and
the recorded status does not depend on any differencer output, which is never
computed for it. -/
theorem missing_checks_ordered (figmaExists : Bool) (d : DiffResult) :
    screenStatus false figmaExists d = ScreenResult.missing_unity ∧
    (∀ e : DiffResult, screenStatus false figmaExists d
      = screenStatus false figmaExists e) := by
  exact ⟨rfl, fun _ => rfl⟩

/-- C2 (counterexample): a batch whose only screen is missing its Unity
capture counts that screen in `missing` and also in `failing` — its absent
match score is read as the default 0, which is at most 80 — so a Missing
record is not excluded from every score bucket. -/
theorem missing_counted_in_failing :
    (summary [("LogoScreen", ScreenResult.missing_unity)]).missing = 1 ∧
    (summary [("LogoScreen", ScreenResult.missing_unity)]).failing = 1 ∧
    (summary [("LogoScreen", ScreenResult.missing_unity)]).passing = 0 ∧
    (summary [("LogoScreen", ScreenResult.missing_unity)]).warning = 0 := by
  refine ⟨rfl, ?_, ?_, ?_⟩ <;> decide

/-- C2 (amended): in every batch summary a Missing* screen is counted in
`missing` and also in `failing` (because its absent match score reads as 0),
and in neither `passing` nor `warning`; those two buckets count only Compared
records. -/
theorem summary_buckets (results : List (String × ScreenResult)) :
    (summary results).missing
      = (results.filter fun r => hasStatus r.2).length ∧
    (summary results).passing
      = (results.filter fun r =>
          !hasStatus r.2 && decide (getMatchScore r.2 > 95)).length ∧
    (summary results).warning
      = (results.filter fun r => !hasStatus r.2 &&
          (decide (80 < getMatchScore r.2) && decide (getMatchScore r.2 ≤ 95))).length ∧
    (summary results).failing
      = (results.filter fun r =>
          !hasStatus r.2 && decide (getMatchScore r.2 ≤ 80)).length
        + (results.filter fun r => hasStatus r.2).length := by
  have hpass : ∀ s : ScreenResult,
      decide (getMatchScore s > 95)
        = (!hasStatus s && decide (getMatchScore s > 95)) := by
    intro s
    cases s
    · decide
    · decide
    · simp [hasStatus]
  have hwarn : ∀ s : ScreenResult,
      (decide (80 < getMatchScore s) && decide (getMatchScore s ≤ 95))
        = (!hasStatus s &&
            (decide (80 < getMatchScore s) && decide (getMatchScore s ≤ 95))) := by
    intro s
    cases s
    · decide
    · decide
    · simp [hasStatus]
  have hfail : ∀ l : List (String × ScreenResult),
      (l.filter fun r => decide (getMatchScore r.2 ≤ 80)).length
        = (l.filter fun r =>
            !hasStatus r.2 && decide (getMatchScore r.2 ≤ 80)).length
          + (l.filter fun r => hasStatus r.2).length := by
    intro l
    induction l with
    | nil => rfl
    | cons a t ih =>
      rcases a with ⟨n, r⟩
      cases r with
      | compared d =>
        by_cases hb : d.match_score ≤ 80 <;>
          simp [List.filter_cons, getMatchScore, hasStatus, hb] at ih ⊢ <;>
          omega
      | missing_unity =>
        simp [List.filter_cons, getMatchScore, hasStatus,
          (by norm_num : ((0:ℚ) ≤ 80))] at ih ⊢
        omega
      | missing_figma =>
        simp [List.filter_cons, getMatchScore, hasStatus,
          (by norm_num : ((0:ℚ) ≤ 80))] at ih ⊢
        omega
  refine ⟨rfl, ?_, ?_, hfail results⟩
  · show (results.filter fun r => decide (getMatchScore r.2 > 95)).length = _
    rw [funext (fun r : String × ScreenResult => hpass r.2)]
  · show (results.filter fun r =>
      decide (80 < getMatchScore r.2) && decide (getMatchScore r.2 ≤ 95)).length = _
    rw [funext (fun r : String × ScreenResult => hwarn r.2)]

/-- C5: for every Compared result the reported match score and diff
percentage are complementary: their sum is 100 up to the 0.01 rounding
tolerance. -/
theorem match_score_complementary (hgt wid : ℕ) (p1 p2 : ℕ → ℕ → Fin 4 → ℚ) :
    |(pixelDiff hgt wid p1 p2).match_score
      + (pixelDiff hgt wid p1 p2).diff_percent - 100| ≤ 1/100 := by
  have h1 := round2_close (diff_percent hgt wid p1 p2)
  have h2 := round2_close (100 - diff_percent hgt wid p1 p2)
  simp only [pixelDiff]
  rw [abs_le] at h1 h2 ⊢
  constructor <;> linarith [h1.1, h1.2, h2.1, h2.2]

/-- C7 (counterexample): with unchanged inputs but a later clock reading, the
latest structured report and the markdown line list both change — the report
record and its Generated line embed the run timestamp — so the report content
is not a function of the input files alone. -/
theorem report_depends_on_timestamp :
    buildReport "2025-01-01T00:00:00" [("LogoScreen", ScreenResult.missing_unity)]
      ≠ buildReport "2025-01-01T00:00:01" [("LogoScreen", ScreenResult.missing_unity)] ∧
    markdownLines (buildReport "2025-01-01T00:00:00"
        [("LogoScreen", ScreenResult.missing_unity)])
      ≠ markdownLines (buildReport "2025-01-01T00:00:01"
        [("LogoScreen", ScreenResult.missing_unity)]) := by
  constructor
  · intro h
    have ht := congrArg BatchReport.timestamp h
    simp only [buildReport] at ht
    exact absurd ht (by decide)
  · intro h
    have ht := congrArg (fun l => l[1]?) h
    simp only [markdownLines, buildReport, List.cons_append,
      List.getElem?_cons_succ, List.getElem?_cons_zero, Option.some.injEq] at ht
    have hd := congrArg String.data ht
    simp only [String.data_append] at hd
    have htail := List.append_cancel_left hd
    exact absurd htail (by decide)

/-- C7 (amended): the per-screen records (with their content fingerprints) and
the summary are deterministic functions of the inputs alone — two runs over
unchanged inputs agree on everything except the embedded timestamp — and two
runs with the same timestamp produce identical structured and markdown
output. -/
theorem report_deterministic_except_timestamp (t1 t2 : String)
    (results : List (String × ScreenResult)) :
    (buildReport t1 results).screens = (buildReport t2 results).screens ∧
    (buildReport t1 results).summary = (buildReport t2 results).summary ∧
    (t1 = t2 → buildReport t1 results = buildReport t2 results ∧
      generateMarkdownReport (buildReport t1 results)
        = generateMarkdownReport (buildReport t2 results)) :=
  ⟨rfl, rfl, fun h => by rw [h]; exact ⟨rfl, rfl⟩⟩

/-- Witness for C7 at a fixed timestamp and a one-screen batch. -/
theorem report_deterministic_witness :
    ("2025-01-01T00:00:00" : String) = "2025-01-01T00:00:00" ∧
    ((buildReport "2025-01-01T00:00:00" [("LogoScreen", ScreenResult.missing_unity)]).screens
      = (buildReport "2025-01-01T00:00:00" [("LogoScreen", ScreenResult.missing_unity)]).screens ∧
    (buildReport "2025-01-01T00:00:00" [("LogoScreen", ScreenResult.missing_unity)]).summary
      = (buildReport "2025-01-01T00:00:00" [("LogoScreen", ScreenResult.missing_unity)]).summary ∧
    ("2025-01-01T00:00:00" = "2025-01-01T00:00:00" →
      buildReport "2025-01-01T00:00:00" [("LogoScreen", ScreenResult.missing_unity)]
        = buildReport "2025-01-01T00:00:00" [("LogoScreen", ScreenResult.missing_unity)] ∧
      generateMarkdownReport (buildReport "2025-01-01T00:00:00"
          [("LogoScreen", ScreenResult.missing_unity)])
        = generateMarkdownReport (buildReport "2025-01-01T00:00:00"
          [("LogoScreen", ScreenResult.missing_unity)]))) :=
  ⟨rfl, report_deterministic_except_timestamp "2025-01-01T00:00:00"
    "2025-01-01T00:00:00" [("LogoScreen", ScreenResult.missing_unity)]⟩

theorem round2_nonneg (q : ℚ) (hq : 0 ≤ q) : 0 ≤ round2 q := by
  have h := roundHalfEven_close (100 * q)
  rw [abs_le] at h
  have h2 : (0:ℤ) ≤ roundHalfEven (100 * q) := by
    by_contra hc
    push_neg at hc
    have hc1 : roundHalfEven (100 * q) ≤ -1 := by omega
    have hc2 : ((roundHalfEven (100 * q) : ℤ) : ℚ) ≤ -1 := by exact_mod_cast hc1
    linarith [h.1]
  have h3 : (0:ℚ) ≤ ((roundHalfEven (100 * q) : ℤ) : ℚ) := by exact_mod_cast h2
  unfold round2
  positivity

theorem round2_le_hundred (q : ℚ) (hq : q ≤ 100) : round2 q ≤ 100 := by
  have h := roundHalfEven_close (100 * q)
  rw [abs_le] at h
  have h2 : roundHalfEven (100 * q) ≤ 10000 := by
    by_contra hc
    push_neg at hc
    have hc1 : (10001 : ℤ) ≤ roundHalfEven (100 * q) := by omega
    have hc2 : ((10001 : ℤ) : ℚ) ≤ ((roundHalfEven (100 * q) : ℤ) : ℚ) :=
      Int.cast_le.mpr hc1
    push_cast at hc2
    linarith [h.2]
  have h3 : ((roundHalfEven (100 * q) : ℤ) : ℚ) ≤ 10000 := by exact_mod_cast h2
  unfold round2
  rw [div_le_iff (by norm_num : (0:ℚ) < 100)]
  linarith

theorem diff_percent_nonneg (hgt wid : ℕ) (p1 p2 : ℕ → ℕ → Fin 4 → ℚ) :
    0 ≤ diff_percent hgt wid p1 p2 := by
  unfold diff_percent
  positivity

theorem diffCount_le (hgt wid : ℕ) (p1 p2 : ℕ → ℕ → Fin 4 → ℚ) :
    diffCount hgt wid p1 p2 ≤ hgt * wid := by
  unfold diffCount
  calc ((Finset.range hgt ×ˢ Finset.range wid).filter
          (fun t => maskAt p1 p2 t.1 t.2 = true)).card
      ≤ (Finset.range hgt ×ˢ Finset.range wid).card := Finset.card_filter_le ..
    _ = hgt * wid := by
        rw [Finset.card_product, Finset.card_range, Finset.card_range]

theorem diff_percent_le_hundred (hgt wid : ℕ) (p1 p2 : ℕ → ℕ → Fin 4 → ℚ)
    (hh : 0 < hgt) (hw : 0 < wid) : diff_percent hgt wid p1 p2 ≤ 100 := by
  have h1 : (diffCount hgt wid p1 p2 : ℚ) ≤ ((hgt * wid : ℕ) : ℚ) :=
    Nat.cast_le.mpr (diffCount_le hgt wid p1 p2)
  have hpos : (0:ℚ) < (hgt : ℚ) * wid := by
    have hh1 : (0:ℚ) < hgt := by exact_mod_cast hh
    have hw1 : (0:ℚ) < wid := by exact_mod_cast hw
    positivity
  unfold diff_percent
  rw [div_mul_eq_mul_div, div_le_iff hpos]
  push_cast at h1
  nlinarith

/-- C9: with positive image dimensions, the reported diff percentage and the
match score of every Compared result both lie in [0, 100]: the match score
can never actually be negative and can never exceed 100. -/
theorem diff_percent_match_score_bounds (hgt wid : ℕ)
    (p1 p2 : ℕ → ℕ → Fin 4 → ℚ) (hh : 0 < hgt) (hw : 0 < wid) :
    0 ≤ (pixelDiff hgt wid p1 p2).diff_percent ∧
    (pixelDiff hgt wid p1 p2).diff_percent ≤ 100 ∧
    0 ≤ (pixelDiff hgt wid p1 p2).match_score ∧
    (pixelDiff hgt wid p1 p2).match_score ≤ 100 := by
  have h0 := diff_percent_nonneg hgt wid p1 p2
  have h100 := diff_percent_le_hundred hgt wid p1 p2 hh hw
  exact ⟨round2_nonneg _ h0, round2_le_hundred _ h100,
    round2_nonneg _ (by linarith), round2_le_hundred _ (by linarith)⟩

/-- Witness for C9 on a 1 × 1 all-black pair of images. -/
theorem diff_percent_match_score_bounds_witness :
    0 < 1 ∧
    (0 ≤ (pixelDiff 1 1 blackPix blackPix).diff_percent ∧
     (pixelDiff 1 1 blackPix blackPix).diff_percent ≤ 100 ∧
     0 ≤ (pixelDiff 1 1 blackPix blackPix).match_score ∧
     (pixelDiff 1 1 blackPix blackPix).match_score ≤ 100) :=
  ⟨Nat.one_pos,
   diff_percent_match_score_bounds 1 1 blackPix blackPix Nat.one_pos Nat.one_pos⟩

theorem fold_max_zero {α : Type} [DecidableEq α] (s : Finset α) (f : α → ℚ)
    (hf : ∀ a ∈ s, f a = 0) : s.fold max 0 f = 0 := by
  induction s using Finset.induction with
  | empty => rfl
  | insert hx ih =>
    rw [Finset.fold_insert hx, hf _ (Finset.mem_insert_self ..),
      ih (fun y hy => hf y (Finset.mem_insert_of_mem hy))]
    simp

theorem diffAt_self (p : ℕ → ℕ → Fin 4 → ℚ) (y x : ℕ) (c : Fin 4) :
    diffAt p p y x c = 0 := by
  simp [diffAt]

theorem maskAt_self (p : ℕ → ℕ → Fin 4 → ℚ) (y x : ℕ) :
    maskAt p p y x = false := by
  simp only [maskAt, pixelScalarDiff, diffAt_self, decide_eq_false_iff_not]
  norm_num [threshold]

theorem diff_percent_self (hgt wid : ℕ) (p : ℕ → ℕ → Fin 4 → ℚ) :
    diff_percent hgt wid p p = 0 := by
  unfold diff_percent diffCount
  rw [Finset.filter_false_of_mem (fun t _ => by simp [maskAt_self])]
  simp

theorem round2_zero : round2 0 = 0 := by
  norm_num [round2, roundHalfEven]

theorem round2_hundred : round2 100 = 100 := by
  have hf : ⌊(100 * 100 : ℚ)⌋ = 10000 := by norm_num
  norm_num [round2, roundHalfEven, hf]

/-- C6: comparing an image against an identical copy of itself yields zero
mean, max and percentage difference, a match score of 100, and no regions. -/
theorem self_compare_identity (resize : Image → ℕ × ℕ → Image) (img : Image) :
    pixelDiffFull resize img img =
      { mean_diff := 0, max_diff := 0, diff_percent := 0,
        resolution := img.size, regions := [], match_score := 100 } := by
  have hnorm : normalize resize img img = (img, img) := by
    rw [normalize, if_neg (by simp)]
  rw [pixelDiffFull, hnorm]
  have hmean : mean_diff img.size.2 img.size.1 img.pix img.pix = 0 := by
    unfold mean_diff totalDiff
    simp [diffAt_self]
  have hmax : max_diff img.size.2 img.size.1 img.pix img.pix = 0 := by
    unfold max_diff
    exact fold_max_zero _ _ (fun a _ => fold_max_zero _ _ (fun c _ => diffAt_self ..))
  have hdp := diff_percent_self img.size.2 img.size.1 img.pix
  have hreg : regions img.size.2 img.size.1 img.pix img.pix = [] := by
    rw [regions, if_neg]
    rw [hdp]
    norm_num
  rw [pixelDiff, hmean, hmax, hdp, hreg, round2_zero]
  have : (100 : ℚ) - 0 = 100 := by norm_num
  rw [this, round2_hundred]

theorem findIdx_getD_spec (l : List Bool) (hany : l.any id = true) :
    l.findIdx id < l.length ∧ l.getD (l.findIdx id) false = true ∧
    ∀ j, j < l.findIdx id → l.getD j false = false := by
  induction l with
  | nil => simp at hany
  | cons a t ih =>
    cases a with
    | true =>
      refine ⟨by simp [List.findIdx_cons], by simp [List.findIdx_cons], ?_⟩
      intro j hj
      simp [List.findIdx_cons] at hj
    | false =>
      have hany' : t.any id = true := by simpa using hany
      obtain ⟨h1, h2, h3⟩ := ih hany'
      have hfi : (false :: t).findIdx id = t.findIdx id + 1 := by
        simp [List.findIdx_cons]
      refine ⟨?_, ?_, ?_⟩
      · simp only [hfi, List.length_cons]
        omega
      · rw [hfi]
        simpa using h2
      · intro j hj
        rw [hfi] at hj
        cases j with
        | zero => rfl
        | succ j => simpa using h3 j (by omega)

theorem getD_map_range (f : ℕ → Bool) (n i : ℕ) (hi : i < n) :
    ((List.range n).map f).getD i false = f i := by
  rw [List.getD_eq_getElem?_getD, List.getElem?_map, List.getElem?_range hi]
  rfl

theorem getD_reverse (l : List Bool) (i : ℕ) (hi : i < l.length) :
    l.reverse.getD i false = l.getD (l.length - 1 - i) false := by
  have h1 : i < l.reverse.length := by simpa using hi
  have h2 : l.length - 1 - i < l.length := by omega
  rw [List.getD_eq_getElem _ _ h1, List.getD_eq_getElem _ _ h2]
  exact List.getElem_reverse ..

/-- The argmax bounds of a boolean vector: between the first `True` and one
past the last `True` lies every `True`, and both endpoints are `True`. -/
theorem bool_bounds (l : List Bool) (hany : l.any id = true) :
    argmaxBool l < l.length - argmaxBool l.reverse ∧
    l.length - argmaxBool l.reverse ≤ l.length ∧
    l.getD (argmaxBool l) false = true ∧
    l.getD (l.length - argmaxBool l.reverse - 1) false = true ∧
    (∀ j, j < l.length → l.getD j false = true →
      argmaxBool l ≤ j ∧ j < l.length - argmaxBool l.reverse) := by
  have hanyr : l.reverse.any id = true := by
    rw [List.any_reverse]
    exact hany
  have ha1 : argmaxBool l = l.findIdx id := if_pos hany
  have ha2 : argmaxBool l.reverse = l.reverse.findIdx id := if_pos hanyr
  obtain ⟨hf1, hf2, hf3⟩ := findIdx_getD_spec l hany
  obtain ⟨hr1, hr2, hr3⟩ := findIdx_getD_spec l.reverse hanyr
  rw [List.length_reverse] at hr1
  rw [ha1, ha2]
  have hlast : l.getD (l.length - 1 - l.reverse.findIdx id) false = true := by
    rw [← getD_reverse l _ (by omega)]
    exact hr2
  have hafter : ∀ j, j < l.length →
      l.length - l.reverse.findIdx id ≤ j → l.getD j false = false := by
    intro j hj hge
    have hidx : l.length - 1 - j < l.reverse.findIdx id := by omega
    have := hr3 _ hidx
    rw [getD_reverse l _ (by omega)] at this
    have heq : l.length - 1 - (l.length - 1 - j) = j := by omega
    rw [heq] at this
    exact this
  have hin : ∀ j, j < l.length → l.getD j false = true →
      l.findIdx id ≤ j ∧ j < l.length - l.reverse.findIdx id := by
    intro j hj ht
    constructor
    · by_contra hc
      push_neg at hc
      rw [hf3 j hc] at ht
      exact absurd ht (by simp)
    · by_contra hc
      push_neg at hc
      rw [hafter j hj hc] at ht
      exact absurd ht (by simp)
  have hfirst_in := hin _ hf1 hf2
  refine ⟨hfirst_in.2, by omega, hf2, ?_, hin⟩
  have heq : l.length - l.reverse.findIdx id - 1
      = l.length - 1 - l.reverse.findIdx id := by omega
  rw [heq]
  exact hlast

theorem row_mark_iff (hgt wid : ℕ) (p1 p2 : ℕ → ℕ → Fin 4 → ℚ) (y : ℕ)
    (hy : y < hgt) :
    ((row_diff hgt wid p1 p2).getD y false = true)
      ↔ ∃ x, x < wid ∧ maskAt p1 p2 y x = true := by
  rw [row_diff, getD_map_range _ _ _ hy]
  simp [List.any_eq_true, List.mem_range]

theorem col_mark_iff (hgt wid : ℕ) (p1 p2 : ℕ → ℕ → Fin 4 → ℚ) (x : ℕ)
    (hx : x < wid) :
    ((col_diff hgt wid p1 p2).getD x false = true)
      ↔ ∃ y, y < hgt ∧ maskAt p1 p2 y x = true := by
  rw [col_diff, getD_map_range _ _ _ hx]
  simp [List.any_eq_true, List.mem_range]

theorem row_diff_any_iff (hgt wid : ℕ) (p1 p2 : ℕ → ℕ → Fin 4 → ℚ) :
    (row_diff hgt wid p1 p2).any id = true
      ↔ ∃ y, y < hgt ∧ ∃ x, x < wid ∧ maskAt p1 p2 y x = true := by
  unfold row_diff
  simp [List.any_eq_true, List.mem_map, List.mem_range]

theorem col_diff_any_iff (hgt wid : ℕ) (p1 p2 : ℕ → ℕ → Fin 4 → ℚ) :
    (col_diff hgt wid p1 p2).any id = true
      ↔ ∃ x, x < wid ∧ ∃ y, y < hgt ∧ maskAt p1 p2 y x = true := by
  unfold col_diff
  simp [List.any_eq_true, List.mem_map, List.mem_range]

theorem row_diff_length (hgt wid : ℕ) (p1 p2 : ℕ → ℕ → Fin 4 → ℚ) :
    (row_diff hgt wid p1 p2).length = hgt := by
  simp [row_diff]

theorem col_diff_length (hgt wid : ℕ) (p1 p2 : ℕ → ℕ → Fin 4 → ℚ) :
    (col_diff hgt wid p1 p2).length = wid := by
  simp [col_diff]

/-- When the difference percentage is above 0.5 and some pixel differs, the
region list is one box whose half-open bounds tightly enclose every differing
pixel and whose area is the rounded difference percentage. -/
theorem regions_spec (hgt wid : ℕ) (p1 p2 : ℕ → ℕ → Fin 4 → ℚ)
    (hdp : diff_percent hgt wid p1 p2 > 1/2)
    (hex : ∃ y, y < hgt ∧ ∃ x, x < wid ∧ maskAt p1 p2 y x = true) :
    ∃ r : DiffRegion, regions hgt wid p1 p2 = [r] ∧
      r.y_start < r.y_end ∧ r.y_end ≤ hgt ∧ r.x_start < r.x_end ∧ r.x_end ≤ wid ∧
      r.area_percent = round2 (diff_percent hgt wid p1 p2) ∧
      (∀ y x, y < hgt → x < wid → maskAt p1 p2 y x = true →
        r.y_start ≤ y ∧ y < r.y_end ∧ r.x_start ≤ x ∧ x < r.x_end) ∧
      (∃ x, x < wid ∧ maskAt p1 p2 r.y_start x = true) ∧
      (∃ x, x < wid ∧ maskAt p1 p2 (r.y_end - 1) x = true) ∧
      (∃ y, y < hgt ∧ maskAt p1 p2 y r.x_start = true) ∧
      (∃ y, y < hgt ∧ maskAt p1 p2 y (r.x_end - 1) = true) := by
  have hany_row : (row_diff hgt wid p1 p2).any id = true :=
    (row_diff_any_iff hgt wid p1 p2).mpr hex
  have hany_col : (col_diff hgt wid p1 p2).any id = true := by
    obtain ⟨y, hy, x, hx, hm⟩ := hex
    exact (col_diff_any_iff hgt wid p1 p2).mpr ⟨x, hx, y, hy, hm⟩
  obtain ⟨h1, h2, h3, h4, h5⟩ := bool_bounds (row_diff hgt wid p1 p2) hany_row
  obtain ⟨g1, g2, g3, g4, g5⟩ := bool_bounds (col_diff hgt wid p1 p2) hany_col
  rw [row_diff_length] at h1 h2 h4 h5
  rw [col_diff_length] at g1 g2 g4 g5
  refine ⟨⟨argmaxBool (row_diff hgt wid p1 p2),
           hgt - argmaxBool (row_diff hgt wid p1 p2).reverse,
           argmaxBool (col_diff hgt wid p1 p2),
           wid - argmaxBool (col_diff hgt wid p1 p2).reverse,
           round2 (diff_percent hgt wid p1 p2)⟩,
    ?_, h1, h2, g1, g2, rfl, ?_, ?_, ?_, ?_, ?_⟩
  · rw [regions, if_pos hdp, if_pos hany_row, row_diff_length, col_diff_length]
  · intro y x hy hx hm
    have hrdy := (row_mark_iff hgt wid p1 p2 y hy).mpr ⟨x, hx, hm⟩
    have hcdx := (col_mark_iff hgt wid p1 p2 x hx).mpr ⟨y, hy, hm⟩
    obtain ⟨hy1, hy2⟩ := h5 y hy hrdy
    obtain ⟨hx1, hx2⟩ := g5 x hx hcdx
    exact ⟨hy1, hy2, hx1, hx2⟩
  · have hlt : argmaxBool (row_diff hgt wid p1 p2) < hgt := by omega
    exact (row_mark_iff hgt wid p1 p2 _ hlt).mp h3
  · have hlt : hgt - argmaxBool (row_diff hgt wid p1 p2).reverse - 1 < hgt := by
      omega
    exact (row_mark_iff hgt wid p1 p2 _ hlt).mp h4
  · have hlt : argmaxBool (col_diff hgt wid p1 p2) < wid := by omega
    exact (col_mark_iff hgt wid p1 p2 _ hlt).mp g3
  · have hlt : wid - argmaxBool (col_diff hgt wid p1 p2).reverse - 1 < wid := by
      omega
    exact (col_mark_iff hgt wid p1 p2 _ hlt).mp g4

/-- C4: at or below 0.5 percent difference no region is produced; above it,
given any differing pixel, exactly one region is produced, whose half-open
bounding box runs from the first to the last differing row and from the
first to the last differing column — the minimal axis-aligned rectangle
enclosing every differing pixel — and never more than one region exists. -/
theorem region_detection (hgt wid : ℕ) (p1 p2 : ℕ → ℕ → Fin 4 → ℚ) :
    (diff_percent hgt wid p1 p2 ≤ 1/2 → regions hgt wid p1 p2 = []) ∧
    (diff_percent hgt wid p1 p2 > 1/2 →
      (∃ y, y < hgt ∧ ∃ x, x < wid ∧ maskAt p1 p2 y x = true) →
      ∃ r : DiffRegion, regions hgt wid p1 p2 = [r] ∧
        (∀ y x, y < hgt → x < wid → maskAt p1 p2 y x = true →
          r.y_start ≤ y ∧ y < r.y_end ∧ r.x_start ≤ x ∧ x < r.x_end) ∧
        (∃ x, x < wid ∧ maskAt p1 p2 r.y_start x = true) ∧
        (∃ x, x < wid ∧ maskAt p1 p2 (r.y_end - 1) x = true) ∧
        (∃ y, y < hgt ∧ maskAt p1 p2 y r.x_start = true) ∧
        (∃ y, y < hgt ∧ maskAt p1 p2 y (r.x_end - 1) = true)) ∧
    (regions hgt wid p1 p2).length ≤ 1 := by
  refine ⟨fun hle => ?_, fun hdp hex => ?_, ?_⟩
  · rw [regions, if_neg (not_lt.mpr hle)]
  · obtain ⟨r, hr, _, _, _, _, _, hencl, hb1, hb2, hb3, hb4⟩ :=
      regions_spec hgt wid p1 p2 hdp hex
    exact ⟨r, hr, hencl, hb1, hb2, hb3, hb4⟩
  · unfold regions
    split_ifs <;> simp

/-- C8: every region that is emitted for a comparison over a mask of height
`hgt` and width `wid` is well-formed and in range — `y_start < y_end ≤ hgt`
and `x_start < x_end ≤ wid` — and its area percentage equals the reported
(rounded) diff percentage of the comparison result. -/
theorem region_bounds_wellformed (hgt wid : ℕ) (p1 p2 : ℕ → ℕ → Fin 4 → ℚ)
    (r : DiffRegion) (hr : r ∈ regions hgt wid p1 p2) :
    r.y_start < r.y_end ∧ r.y_end ≤ hgt ∧ r.x_start < r.x_end ∧ r.x_end ≤ wid ∧
    r.area_percent = (pixelDiff hgt wid p1 p2).diff_percent := by
  have hdp : diff_percent hgt wid p1 p2 > 1/2 := by
    by_contra hc
    rw [regions, if_neg hc] at hr
    simp at hr
  have hany : (row_diff hgt wid p1 p2).any id = true := by
    by_contra hc
    rw [regions, if_pos hdp, if_neg hc] at hr
    simp at hr
  have hex := (row_diff_any_iff hgt wid p1 p2).mp hany
  obtain ⟨r0, hr0, b1, b2, b3, b4, barea, _, _, _, _, _⟩ :=
    regions_spec hgt wid p1 p2 hdp hex
  rw [hr0] at hr
  have heq : r = r0 := by simpa using hr
  subst heq
  exact ⟨b1, b2, b3, b4, barea⟩

theorem maskAt_black_white : maskAt blackPix whitePix 0 0 = true := by
  simp only [maskAt, pixelScalarDiff, diffAt, blackPix, whitePix,
    threshold, decide_eq_true_eq, Fin.sum_univ_four]
  norm_num

theorem diffCount_black_white : diffCount 1 1 blackPix whitePix = 1 := by
  unfold diffCount
  rw [show Finset.range 1 ×ˢ Finset.range 1 = {((0:ℕ), (0:ℕ))} by decide]
  rw [Finset.filter_singleton, if_pos maskAt_black_white]
  rfl

theorem dp_black_white : diff_percent 1 1 blackPix whitePix = 100 := by
  unfold diff_percent
  rw [diffCount_black_white]
  norm_num

theorem dp_black_white_gt : diff_percent 1 1 blackPix whitePix > 1/2 := by
  rw [dp_black_white]
  norm_num

/-- Witness for C4 on the 1 × 1 black vs white pair. -/
theorem region_detection_witness :
    diff_percent 1 1 blackPix whitePix > 1/2 ∧
    (∃ y, y < 1 ∧ ∃ x, x < 1 ∧ maskAt blackPix whitePix y x = true) ∧
    (∃ r : DiffRegion, regions 1 1 blackPix whitePix = [r] ∧
      (∀ y x, y < 1 → x < 1 → maskAt blackPix whitePix y x = true →
        r.y_start ≤ y ∧ y < r.y_end ∧ r.x_start ≤ x ∧ x < r.x_end) ∧
      (∃ x, x < 1 ∧ maskAt blackPix whitePix r.y_start x = true) ∧
      (∃ x, x < 1 ∧ maskAt blackPix whitePix (r.y_end - 1) x = true) ∧
      (∃ y, y < 1 ∧ maskAt blackPix whitePix y r.x_start = true) ∧
      (∃ y, y < 1 ∧ maskAt blackPix whitePix y (r.x_end - 1) = true)) :=
  ⟨dp_black_white_gt,
   ⟨0, Nat.one_pos, 0, Nat.one_pos, maskAt_black_white⟩,
   (region_detection 1 1 blackPix whitePix).2.1 dp_black_white_gt
     ⟨0, Nat.one_pos, 0, Nat.one_pos, maskAt_black_white⟩⟩

theorem regions_black_white :
    regions 1 1 blackPix whitePix = [⟨0, 1, 0, 1, (100:ℚ)⟩] := by
  have hone : List.range 1 = [0] := rfl
  have hrd : row_diff 1 1 blackPix whitePix = [true] := by
    simp [row_diff, hone, maskAt_black_white]
  have hcd : col_diff 1 1 blackPix whitePix = [true] := by
    simp [col_diff, hone, maskAt_black_white]
  rw [regions, if_pos dp_black_white_gt, hrd, hcd, dp_black_white, round2_hundred]
  rfl

theorem region_black_white_mem :
    (⟨0, 1, 0, 1, (100:ℚ)⟩ : DiffRegion) ∈ regions 1 1 blackPix whitePix := by
  rw [regions_black_white]
  exact List.mem_singleton.mpr rfl

/-- Witness for C8 on the 1 × 1 black vs white pair. -/
theorem region_bounds_wellformed_witness :
    (⟨0, 1, 0, 1, (100:ℚ)⟩ : DiffRegion) ∈ regions 1 1 blackPix whitePix ∧
    ((0:ℕ) < 1 ∧ 1 ≤ 1 ∧ (0:ℕ) < 1 ∧ 1 ≤ 1 ∧
      (100:ℚ) = (pixelDiff 1 1 blackPix whitePix).diff_percent) :=
  ⟨region_black_white_mem,
   region_bounds_wellformed 1 1 blackPix whitePix _ region_black_white_mem⟩

end VisualQA
